import Mathlib

/-!
Verification of the dynamic-workspace sensor (src/sensor/main_sensor.py).

The per-frame fusion pipeline, the posture state machine, the QoS
controller and the calibration service are embedded below.  Exact
rational arithmetic (ℚ) stands in for the source's floating point
except where the source genuinely uses transcendental functions
(the EMA blending factor uses exp, the roll angle uses atan2); those
definitions live over ℝ.
-/

/- ### Tunable constants (module-level globals of main_sensor.py) -/

def EMA_TAU_S : ℝ := 0.25
def WINSOR_DELTA : ℝ := 0.35
def W_Z_BASE : ℚ := 0.6
def W_EYE_BASE : ℚ := 0.3
def W_BBOX_BASE : ℚ := 0.1
def FUSED_T_REVIEW_IN : ℚ := 0.40
def FUSED_T_FOCUS_IN : ℚ := 0.60
def FUSED_DWELL_REVIEW_MS : ℚ := 750
def FUSED_DWELL_FOCUS_MS : ℚ := 750
def MIN_FLIP_GAP_MS : ℚ := 1500
def CONF_MIN : ℚ := 0.65
def BRIGHTNESS_MIN : ℚ := 60
def BRIGHTNESS_GOOD : ℚ := 120
def BLUR_MIN : ℚ := 60
def BLUR_GOOD : ℚ := 150
def PROC_SCALE_MIN : ℚ := 0.55
def PROC_SCALE_MAX : ℚ := 0.90
def FD_STRIDE_MIN : ℤ := 1
def FD_STRIDE_MAX : ℤ := 4
def POSE_STRIDE_MIN : ℤ := 1
def POSE_STRIDE_MAX : ℤ := 3
def CPU_OVERLOAD : ℚ := 85
def OVERLOAD_CLEAR : ℚ := 0.85

/- ### Normalization helpers (lines 267-311) -/

/-- clamp01 (line 267): None maps to 0, otherwise clamp into [0,1]. -/
def clamp01 (x : Option ℚ) : ℚ :=
  match x with
  | none => 0
  | some v => if v > 1 then 1 else if v < 0 then 0 else v

/-- lin_norm_near1 (line 270): None if any argument is missing or the
anchors coincide; otherwise (x - far)/(near - far) clamped to [0,1]. -/
def lin_norm_near1 (x far_mean near_mean : Option ℚ) : Option ℚ :=
  match x, far_mean, near_mean with
  | some xv, some fm, some nm =>
      if nm = fm then none
      else some (clamp01 (some ((xv - fm) / (nm - fm))))
  | _, _, _ => none

/-- norm_quality (line 307): linear ramp 0→1 between vmin and vgood;
a missing value scores 0. -/
def norm_quality (val : Option ℚ) (vmin vgood : ℚ) : ℚ :=
  match val with
  | none => 0
  | some v =>
      if v ≤ vmin then 0
      else if v ≥ vgood then 1
      else (v - vmin) / (vgood - vmin)

/- ### Fusion engine (lines 276-291) -/

/-- The effective weights computed at the top of fuse_components
(lines 277-285): base weights are zeroed by the availability booleans,
the eye and bbox weights are scaled by the clamped face score, and any
weight whose normalized signal is missing is zeroed. -/
def effWeights (z_norm eye_norm bbox_norm : Option ℚ)
    (has_pose eyes_visible has_face : Bool) (face_score : ℚ) : ℚ × ℚ × ℚ :=
  let wz0 := if has_pose then W_Z_BASE else 0
  let weye0 := if eyes_visible then W_EYE_BASE else 0
  let wb0 := if has_face then W_BBOX_BASE else 0
  let fs := max 0 (min 1 face_score)
  let weye1 := weye0 * fs
  let wb1 := wb0 * fs
  let wz := if z_norm = none then 0 else wz0
  let weye := if eye_norm = none then 0 else weye1
  let wb := if bbox_norm = none then 0 else wb1
  (wz, weye, wb)

/-- fuse_components (line 276): returns the fused raw value (None when
the effective weights sum to ≤ 0) together with the normalized weight
triple reported for telemetry. -/
def fuse_components (z_norm eye_norm bbox_norm : Option ℚ)
    (has_pose eyes_visible has_face : Bool) (face_score : ℚ) :
    Option ℚ × (ℚ × ℚ × ℚ) :=
  let w := effWeights z_norm eye_norm bbox_norm has_pose eyes_visible has_face face_score
  let wz := w.1
  let weye := w.2.1
  let wb := w.2.2
  let wsum := wz + weye + wb
  if wsum ≤ 0 then (none, (0, 0, 0))
  else
    let z := z_norm.getD 0
    let e := eye_norm.getD 0
    let b := bbox_norm.getD 0
    (some (clamp01 (some ((wz * z + weye * e + wb * b) / wsum))),
     (wz / wsum, weye / wsum, wb / wsum))

/- ### Overall confidence (lines 464-471 and 689-710) -/

/-- The overall confidence computed each pipeline tick (lines 464-471). -/
def overall_confidence (has_pose : Bool) (z_norm : Option ℚ)
    (eyes_visible has_face : Bool) (face_score : ℚ)
    (eye_norm bbox_norm : Option ℚ) (brightness blur_var : ℚ) : ℚ :=
  let c_z : ℚ := if has_pose ∧ z_norm ≠ none then 1 else 0
  let fs := max 0 (min 1 face_score)
  let c_eye := if eyes_visible ∧ eye_norm ≠ none then fs else 0
  let c_box := if has_face ∧ bbox_norm ≠ none then fs else 0
  let c_bri := norm_quality (some brightness) BRIGHTNESS_MIN BRIGHTNESS_GOOD
  let c_blr := norm_quality (some blur_var) BLUR_MIN BLUR_GOOD
  let c_q := min c_bri c_blr
  0.4 * c_z + 0.3 * c_eye + 0.2 * c_box + 0.1 * c_q

/-- The confidence computed for each heartbeat message (lines 689-709);
in the sender brightness and blur may still be unset, scoring 0. -/
def hb_confidence (has_pose : Bool) (z_norm : Option ℚ)
    (eyes_visible has_face : Bool) (face_score : ℚ)
    (eye_norm bbox_norm : Option ℚ) (brightness blur_var : Option ℚ) : ℚ :=
  let c_bri := match brightness with
    | none => 0
    | some bv => norm_quality (some bv) BRIGHTNESS_MIN BRIGHTNESS_GOOD
  let c_blr := match blur_var with
    | none => 0
    | some bv => norm_quality (some bv) BLUR_MIN BLUR_GOOD
  let c_q := min c_bri c_blr
  let c_z : ℚ := if has_pose ∧ z_norm ≠ none then 1 else 0
  let fs := max 0 (min 1 face_score)
  let c_eye := if eyes_visible ∧ eye_norm ≠ none then fs else 0
  let c_box := if has_face ∧ bbox_norm ≠ none then fs else 0
  0.4 * c_z + 0.3 * c_eye + 0.2 * c_box + 0.1 * c_q

/- ### Calibration thresholds (save_calibration, lines 174-206) -/

structure Thresholds where
  mid : ℚ
  t_focus_in : ℚ
  t_review_in : ℚ
  dwell_ms : ℤ
deriving DecidableEq, Repr

/-- The derived thresholds computed by save_calibration (lines 177-181):
mid is the midpoint of the two phase means, the hysteresis band is
0.2·gap clamped into [0.8, 3.0], and the entry thresholds sit band/2
on either side of mid. -/
def save_calibration_thresholds (review_mean focus_mean : ℚ) (dwell_ms : ℤ) :
    Thresholds :=
  let mid := (review_mean + focus_mean) / 2
  let gap := |review_mean - focus_mean|
  let band := max 0.8 (min 3.0 (0.2 * gap))
  { mid := mid
    t_focus_in := mid - band / 2
    t_review_in := mid + band / 2
    dwell_ms := dwell_ms }

/- ### Persistence trace of save_calibration (lines 174-206) -/

/-- File-system operations visible in the persistence layer. -/
inductive FsOp where
  | mkdirp (path : String)
  | writeFile (path : String)
  | rename (src dst : String)
deriving DecidableEq, Repr

/-- The platform-dependent per-user configuration directory (line 34);
the prefix is abstracted away, only the suffix matters here. -/
def CONFIG_DIR : String := "DynamicWorkspace/config"

/-- CALIB_PATH (line 35). -/
def CALIB_PATH : String := CONFIG_DIR ++ "/calibration.json"

/-- The sequence of file-system operations save_calibration performs
(lines 176 and 201-202): ensure_config_dir makes the directory, then
the JSON document is dumped straight into the calibration path by a
single open-for-write; no temporary file and no rename appear. -/
def save_calibration_fsOps : List FsOp :=
  [FsOp.mkdirp CONFIG_DIR, FsOp.writeFile CALIB_PATH]

/- ### QoS controller (lines 570-592) and set_qos command (lines 803-813) -/

structure QoS where
  proc_scale : ℚ
  fd_stride : ℤ
  pose_stride : ℤ
deriving DecidableEq, Repr

/-- The defaults of g_qos (lines 131-133). -/
def qosDefault : QoS := { proc_scale := 0.75, fd_stride := 2, pose_stride := 2 }

/-- One adjustment tick of the QoS controller (lines 579-592): under
overload or high CPU, degrade quality one knob at a time in the order
pose_stride, fd_stride, proc_scale; when comfortably under budget,
recover in the order proc_scale, fd_stride, pose_stride. -/
def qosAdjust (q : QoS) (overload : Bool) (cpu_pct : Option ℚ)
    (avg_ms budget_ms : ℚ) : QoS :=
  if overload = true ∨ (∃ c, cpu_pct = some c ∧ c ≥ CPU_OVERLOAD) then
    if q.pose_stride < POSE_STRIDE_MAX then
      { q with pose_stride := q.pose_stride + 1 }
    else if q.fd_stride < FD_STRIDE_MAX then
      { q with fd_stride := q.fd_stride + 1 }
    else if q.proc_scale > PROC_SCALE_MIN then
      { q with proc_scale := max PROC_SCALE_MIN (q.proc_scale - 0.05) }
    else q
  else if avg_ms < budget_ms * OVERLOAD_CLEAR then
    if q.proc_scale < PROC_SCALE_MAX then
      { q with proc_scale := min PROC_SCALE_MAX (q.proc_scale + 0.03) }
    else if q.fd_stride > FD_STRIDE_MIN then
      { q with fd_stride := q.fd_stride - 1 }
    else if q.pose_stride > POSE_STRIDE_MIN then
      { q with pose_stride := q.pose_stride - 1 }
    else q
  else q

/-- The set_qos command handler (lines 803-813): each field present in
the message is clamped into its bounds; absent fields keep their value. -/
def setQos (q : QoS) (ps : Option ℚ) (fd pose : Option ℤ) : QoS :=
  let q1 := match ps with
    | none => q
    | some v => { q with proc_scale := max PROC_SCALE_MIN (min PROC_SCALE_MAX v) }
  let q2 := match fd with
    | none => q1
    | some v => { q1 with fd_stride := max FD_STRIDE_MIN (min FD_STRIDE_MAX v) }
  match pose with
  | none => q2
  | some v => { q2 with pose_stride := max POSE_STRIDE_MIN (min POSE_STRIDE_MAX v) }

/-- The QoS bounds invariant of the spec. -/
def QoSInBounds (q : QoS) : Prop :=
  PROC_SCALE_MIN ≤ q.proc_scale ∧ q.proc_scale ≤ PROC_SCALE_MAX ∧
  FD_STRIDE_MIN ≤ q.fd_stride ∧ q.fd_stride ≤ FD_STRIDE_MAX ∧
  POSE_STRIDE_MIN ≤ q.pose_stride ∧ q.pose_stride ≤ POSE_STRIDE_MAX

instance (q : QoS) : Decidable (QoSInBounds q) := by
  unfold QoSInBounds; infer_instance

/-- An event touching the QoS triple: either a controller adjustment
tick or an external set_qos override. -/
inductive QosEvent where
  | adjust (overload : Bool) (cpu_pct : Option ℚ) (avg_ms budget_ms : ℚ)
  | override (ps : Option ℚ) (fd pose : Option ℤ)

def applyQosEvent (q : QoS) (ev : QosEvent) : QoS :=
  match ev with
  | QosEvent.adjust o c a b => qosAdjust q o c a b
  | QosEvent.override ps fd pose => setQos q ps fd pose

def runQos (evs : List QosEvent) : QoS :=
  evs.foldl applyQosEvent qosDefault

/-- At most one of the three knobs differs between q and r. -/
def atMostOneKnobChanged (q r : QoS) : Prop :=
  (r.fd_stride = q.fd_stride ∧ r.pose_stride = q.pose_stride) ∨
  (r.proc_scale = q.proc_scale ∧ r.pose_stride = q.pose_stride) ∨
  (r.proc_scale = q.proc_scale ∧ r.fd_stride = q.fd_stride)

/- ### Posture state machine (lines 499-547) -/

inductive PState where
  | focus
  | review
  | transitionToReview
  | transitionToFocus
deriving DecidableEq, Repr

inductive TTarget where
  | review
  | focus
deriving DecidableEq, Repr

/-- The mutable variables the state-machine block reads and writes:
g_current_state, g_transition_target, g_transition_start_ts and
g_last_stable_change_ts (timestamps in seconds). -/
structure SMState where
  state : PState
  transition_target : Option TTarget
  transition_start_ts : ℚ
  last_stable_change_ts : ℚ
deriving DecidableEq, Repr

/-- Initial values (lines 82, 107-109). -/
def smInit : SMState :=
  { state := PState.focus
    transition_target := none
    transition_start_ts := 0
    last_stable_change_ts := 0 }

/-- Per-tick inputs of the state-machine block: the fused EMA m (may be
missing), whether health.status is PAUSED, the overall confidence, and
the wall-clock time now in seconds. -/
structure SMInput where
  m : Option ℚ
  paused : Bool
  conf : ℚ
  now : ℚ

/-- One tick of the posture state machine (lines 499-547).  Returns the
updated variables together with a flag marking the ticks that commit a
stable state (the branches that assign FOCUS or REVIEW and refresh
g_last_stable_change_ts). -/
def smStep (s : SMState) (i : SMInput) : SMState × Bool :=
  match i.m with
  | none => (s, false)
  | some m =>
    if i.paused = true then (s, false)
    else
      let low := FUSED_T_REVIEW_IN
      let high := FUSED_T_FOCUS_IN
      let confident := CONF_MIN ≤ i.conf
      let since_flip_ms := (i.now - s.last_stable_change_ts) * 1000
      match s.state with
      | PState.focus =>
          if m ≤ low ∧ MIN_FLIP_GAP_MS ≤ since_flip_ms ∧ confident then
            if s.transition_target ≠ some TTarget.review then
              ({ s with state := PState.transitionToReview
                        transition_target := some TTarget.review
                        transition_start_ts := i.now }, false)
            else if FUSED_DWELL_REVIEW_MS ≤ (i.now - s.transition_start_ts) * 1000
                ∧ confident then
              ({ s with state := PState.review
                        transition_target := none
                        last_stable_change_ts := i.now }, true)
            else (s, false)
          else if s.transition_target = some TTarget.review ∧ (low < m ∨ ¬confident) then
            ({ s with transition_target := none }, false)
          else (s, false)
      | PState.review =>
          if high ≤ m ∧ MIN_FLIP_GAP_MS ≤ since_flip_ms ∧ confident then
            if s.transition_target ≠ some TTarget.focus then
              ({ s with state := PState.transitionToFocus
                        transition_target := some TTarget.focus
                        transition_start_ts := i.now }, false)
            else if FUSED_DWELL_FOCUS_MS ≤ (i.now - s.transition_start_ts) * 1000
                ∧ confident then
              ({ s with state := PState.focus
                        transition_target := none
                        last_stable_change_ts := i.now }, true)
            else (s, false)
          else if s.transition_target = some TTarget.focus ∧ (m < high ∨ ¬confident) then
            ({ s with transition_target := none }, false)
          else (s, false)
      | PState.transitionToReview =>
          if low < m ∨ i.conf < CONF_MIN then
            ({ s with state := PState.focus, transition_target := none }, false)
          else if FUSED_DWELL_REVIEW_MS ≤ (i.now - s.transition_start_ts) * 1000 then
            ({ s with state := PState.review
                      transition_target := none
                      last_stable_change_ts := i.now }, true)
          else (s, false)
      | PState.transitionToFocus =>
          if m < high ∨ i.conf < CONF_MIN then
            ({ s with state := PState.review, transition_target := none }, false)
          else if FUSED_DWELL_FOCUS_MS ≤ (i.now - s.transition_start_ts) * 1000 then
            ({ s with state := PState.focus
                      transition_target := none
                      last_stable_change_ts := i.now }, true)
          else (s, false)

/-- Run a list of ticks, keeping only the final variables. -/
def smRun (s : SMState) (l : List SMInput) : SMState :=
  l.foldl (fun t i => (smStep t i).1) s

/-- The ticks of l, run from s, commit no stable change. -/
def smNoCommit (s : SMState) : List SMInput → Bool
  | [] => true
  | i :: rest => !(smStep s i).2 && smNoCommit (smStep s i).1 rest

/-- The inductive invariant behind the min-flip-gap guarantee: whenever
the machine sits in a transition state, the transition was started at
least MIN_FLIP_GAP_MS after the last committed stable change. -/
def SMInv (s : SMState) : Prop :=
  (s.state = PState.transitionToReview ∨ s.state = PState.transitionToFocus) →
    MIN_FLIP_GAP_MS ≤ (s.transition_start_ts - s.last_stable_change_ts) * 1000

instance (s : SMState) : Decidable (SMInv s) := by
  unfold SMInv; infer_instance

/- ### Winsorized EMA (ema_update, lines 293-298) -/

/-- The blending factor beta of ema_update (line 296). -/
noncomputable def emaBeta (dt : ℝ) : ℝ :=
  1 - Real.exp (-(max dt (1 / 1000)) / EMA_TAU_S)

/-- ema_update (line 293): a missing sample preserves the previous EMA,
a missing previous EMA is seeded with the sample, otherwise the sample
is winsorized to ±WINSOR_DELTA of the previous value and blended. -/
noncomputable def ema_update (prev x : Option ℝ) (dt : ℝ) : Option ℝ :=
  match x with
  | none => prev
  | some xv =>
    match prev with
    | none => some xv
    | some p =>
        let x_clamped := max (p - WINSOR_DELTA) (min (p + WINSOR_DELTA) xv)
        some (p + emaBeta dt * (x_clamped - p))

/-- Fold ema_update over a stream of (sample, dt) pairs. -/
noncomputable def ema_run (e : Option ℝ) (l : List (Option ℝ × ℝ)) : Option ℝ :=
  l.foldl (fun acc pr => ema_update acc pr.1 pr.2) e

/- ### Eye geometry of compute_face_features (lines 240-258) -/

/-- Two-argument arctangent with the quadrant conventions of the
C math library (which the source's runtime follows, signed zeros
aside): the angle of the point (x, y) in (-π, π]. -/
noncomputable def atan2 (y x : ℝ) : ℝ :=
  if 0 < x then Real.arctan (y / x)
  else if x < 0 then
    (if 0 ≤ y then Real.arctan (y / x) + Real.pi
     else Real.arctan (y / x) - Real.pi)
  else
    (if 0 < y then Real.pi / 2
     else if y < 0 then -(Real.pi / 2)
     else 0)

/-- The ordered eye pair of compute_face_features (lines 241-243):
swap so that the left eye has the smaller x. -/
noncomputable def orderedEyes (rx ry lx ly : ℝ) : (ℝ × ℝ) × (ℝ × ℝ) :=
  if lx > rx then ((rx, ry), (lx, ly)) else ((lx, ly), (rx, ry))

/-- The eye-derived features of compute_face_features (lines 240-258),
given that both eye keypoints are present: the pair (eye_dist, roll_deg).
eye_dist is the euclidean distance of the ordered pair; roll_deg is
atan2 of the ordered differences, converted to degrees and shifted by
±180 when outside [-90, 90]. -/
noncomputable def eye_features (rx ry lx ly : ℝ) : ℝ × ℝ :=
  let lr := orderedEyes rx ry lx ly
  let dx := lr.2.1 - lr.1.1
  let dy := lr.2.2 - lr.1.2
  let dist := Real.sqrt (dx ^ 2 + dy ^ 2)
  let ang := atan2 dy dx * (180 / Real.pi)
  let wrapped :=
    if ang < -90 then ang + 180
    else if ang > 90 then ang - 180
    else ang
  (dist, wrapped)

/-- True exactly on rename operations. -/
def isRename : FsOp → Bool
  | FsOp.rename _ _ => true
  | _ => false

/- ### Helper lemmas -/

theorem clamp01_nonneg (x : Option ℚ) : 0 ≤ clamp01 x := by
  cases x with
  | none => simp [clamp01]
  | some v => simp only [clamp01]; split_ifs <;> linarith

theorem clamp01_le_one (x : Option ℚ) : clamp01 x ≤ 1 := by
  cases x with
  | none => simp [clamp01]
  | some v => simp only [clamp01]; split_ifs <;> linarith

theorem clamp01_eq_self {v : ℚ} (h0 : 0 ≤ v) (h1 : v ≤ 1) :
    clamp01 (some v) = v := by
  simp only [clamp01]; split_ifs <;> linarith

theorem clamp01_mono {v w : ℚ} (h : v ≤ w) :
    clamp01 (some v) ≤ clamp01 (some w) := by
  simp only [clamp01]; split_ifs <;> linarith

theorem norm_quality_nonneg (val : Option ℚ) (vmin vgood : ℚ) :
    0 ≤ norm_quality val vmin vgood := by
  cases val with
  | none => simp [norm_quality]
  | some v =>
      simp only [norm_quality]
      split_ifs with h1 h2
      · linarith
      · linarith
      · have hlt : vmin < v := lt_of_not_le h1
        have hlt2 : v < vgood := lt_of_not_le h2
        apply div_nonneg <;> linarith

theorem norm_quality_le_one (val : Option ℚ) (vmin vgood : ℚ) :
    norm_quality val vmin vgood ≤ 1 := by
  cases val with
  | none => simp [norm_quality]
  | some v =>
      simp only [norm_quality]
      split_ifs with h1 h2
      · linarith
      · linarith
      · have hlt : vmin < v := lt_of_not_le h1
        have hlt2 : v < vgood := lt_of_not_le h2
        rw [div_le_one (by linarith)]
        linarith

/- ### Claim theorems -/

/-- C5: lin_norm_near1 returns None exactly when an argument is missing
or the anchors coincide; otherwise it is the clamped affine map
(x - far)/(near - far), which sends the near anchor to 1, the far
anchor to 0, and is monotone (order preserving or order reversing) in x. -/
theorem lin_norm_near1_spec :
    (∀ x f n : Option ℚ, lin_norm_near1 x f n = none ↔
        x = none ∨ f = none ∨ n = none ∨ f = n) ∧
    (∀ x f n : ℚ, f ≠ n →
        lin_norm_near1 (some x) (some f) (some n)
          = some (clamp01 (some ((x - f) / (n - f))))) ∧
    (∀ f n : ℚ, f ≠ n → lin_norm_near1 (some n) (some f) (some n) = some 1) ∧
    (∀ f n : ℚ, f ≠ n → lin_norm_near1 (some f) (some f) (some n) = some 0) ∧
    (∀ f n : ℚ, f ≠ n →
        (∀ x y : ℚ, x ≤ y →
          (lin_norm_near1 (some x) (some f) (some n)).getD 0
            ≤ (lin_norm_near1 (some y) (some f) (some n)).getD 0) ∨
        (∀ x y : ℚ, x ≤ y →
          (lin_norm_near1 (some y) (some f) (some n)).getD 0
            ≤ (lin_norm_near1 (some x) (some f) (some n)).getD 0)) := by
  refine ⟨?_, ?_, ?_, ?_, ?_⟩
  · intro x f n
    cases x <;> cases f <;> cases n <;>
      simp only [lin_norm_near1, Option.some.injEq] <;>
      try simp
    rename_i _ fv nv
    constructor
    · intro h
      by_cases hfn : nv = fv
      · simp [hfn]
      · simp [hfn] at h
    · intro h
      have : fv = nv := by simpa using h
      simp [this]
  · intro x f n hfn
    simp only [lin_norm_near1]
    rw [if_neg (fun h => hfn h.symm)]
  · intro f n hfn
    simp only [lin_norm_near1]
    rw [if_neg (fun h => hfn h.symm)]
    have : (n - f) / (n - f) = 1 := div_self (sub_ne_zero.mpr (fun h => hfn h.symm))
    rw [this, clamp01_eq_self (by norm_num) (by norm_num)]
  · intro f n hfn
    simp only [lin_norm_near1]
    rw [if_neg (fun h => hfn h.symm)]
    have : (f - f) / (n - f) = 0 := by simp
    rw [this, clamp01_eq_self (by norm_num) (by norm_num)]
  · intro f n hfn
    rcases lt_or_gt_of_ne (fun h : f = n => hfn h) with hlt | hgt
    · left
      intro x y hxy
      simp only [lin_norm_near1]
      rw [if_neg (fun h => hfn h.symm), if_neg (fun h => hfn h.symm)]
      simp only [Option.getD_some]
      apply clamp01_mono
      apply div_le_div_of_nonneg_right ?_ (by linarith) |>.trans_eq rfl
      linarith
    · right
      intro x y hxy
      simp only [lin_norm_near1]
      rw [if_neg (fun h => hfn h.symm), if_neg (fun h => hfn h.symm)]
      simp only [Option.getD_some]
      apply clamp01_mono
      have hneg : n - f < 0 := by linarith
      rw [div_eq_mul_inv, div_eq_mul_inv]
      exact mul_le_mul_of_nonpos_right (by linarith) (inv_nonpos.mpr (le_of_lt hneg))

/-- C5 witness: with anchors far = 1, near = 3 the near anchor maps to 1
and the far anchor to 0. -/
theorem lin_norm_near1_spec_witness :
    lin_norm_near1 (some (3 : ℚ)) (some 1) (some 3) = some 1 ∧
    lin_norm_near1 (some (1 : ℚ)) (some 1) (some 3) = some 0 :=
  ⟨lin_norm_near1_spec.2.2.1 1 3 (by norm_num),
   lin_norm_near1_spec.2.2.2.1 1 3 (by norm_num)⟩

/-- C6: the finalize step derives mid as the midpoint of the phase
means, the band as 0.2·gap clamped into [0.8, 3.0], and the entry
thresholds band/2 on either side of mid; phase means -30 and -28 give
mid -29, t_focus_in -29.4, t_review_in -28.6; every resulting profile
has mid between the two phase means and t_focus_in < t_review_in. -/
theorem save_calibration_thresholds_spec :
    (∀ r f : ℚ, ∀ d : ℤ,
        (save_calibration_thresholds r f d).mid = (r + f) / 2 ∧
        (save_calibration_thresholds r f d).t_focus_in
          = (r + f) / 2 - (max 0.8 (min 3.0 (0.2 * |r - f|))) / 2 ∧
        (save_calibration_thresholds r f d).t_review_in
          = (r + f) / 2 + (max 0.8 (min 3.0 (0.2 * |r - f|))) / 2 ∧
        (min r f ≤ (save_calibration_thresholds r f d).mid ∧
         (save_calibration_thresholds r f d).mid ≤ max r f) ∧
        (save_calibration_thresholds r f d).t_focus_in
          < (save_calibration_thresholds r f d).t_review_in) ∧
    save_calibration_thresholds (-30) (-28) 750
      = { mid := -29, t_focus_in := -29.4, t_review_in := -28.6, dwell_ms := 750 } := by
  constructor
  · intro r f d
    refine ⟨rfl, rfl, rfl, ?_, ?_⟩
    · constructor
      · rcases le_total r f with h | h
        · rw [min_eq_left h]; simp only [save_calibration_thresholds]; linarith
        · rw [min_eq_right h]; simp only [save_calibration_thresholds]; linarith
      · rcases le_total r f with h | h
        · rw [max_eq_right h]; simp only [save_calibration_thresholds]; linarith
        · rw [max_eq_left h]; simp only [save_calibration_thresholds]; linarith
    · have hband : (0.8 : ℚ) ≤ max 0.8 (min 3.0 (0.2 * |r - f|)) := le_max_left _ _
      simp only [save_calibration_thresholds]
      linarith
  · simp only [save_calibration_thresholds]
    norm_num [abs_of_nonpos]

/-- C7 counterexample: the persistence trace of save_calibration
contains no rename at all (and writes the calibration path directly),
so the profile is not persisted by write-then-rename. -/
theorem save_calibration_fsOps_no_rename :
    save_calibration_fsOps.any isRename = false ∧
    FsOp.writeFile CALIB_PATH ∈ save_calibration_fsOps := by
  constructor
  · rfl
  · simp [save_calibration_fsOps]

/-- C7 (amended): when calibration is finalized the profile is
persisted by ensuring the configuration directory exists and then
writing the JSON document directly to the calibration path; no
temporary file and no rename are involved, so the write is not atomic
in the write-then-rename sense. -/
theorem save_calibration_direct_write :
    save_calibration_fsOps = [FsOp.mkdirp CONFIG_DIR, FsOp.writeFile CALIB_PATH] ∧
    save_calibration_fsOps.any isRename = false :=
  ⟨rfl, rfl⟩

/-- Bound for the fixed 0.4/0.3/0.2/0.1 confidence blend. -/
theorem conf_blend_bounds (cz ce cb cq : ℚ)
    (h1 : 0 ≤ cz) (h2 : cz ≤ 1) (h3 : 0 ≤ ce) (h4 : ce ≤ 1)
    (h5 : 0 ≤ cb) (h6 : cb ≤ 1) (h7 : 0 ≤ cq) (h8 : cq ≤ 1) :
    0 ≤ 0.4 * cz + 0.3 * ce + 0.2 * cb + 0.1 * cq ∧
    0.4 * cz + 0.3 * ce + 0.2 * cb + 0.1 * cq ≤ 1 := by
  constructor <;> nlinarith

/-- C10: whatever the detector outputs are — including a face score
outside [0,1] — the overall confidence of a pipeline tick and the
confidence recomputed for each heartbeat both lie in [0,1]. -/
theorem overall_confidence_bounds :
    (∀ hp zn ev hf fs en bn bri blr,
        0 ≤ overall_confidence hp zn ev hf fs en bn bri blr ∧
        overall_confidence hp zn ev hf fs en bn bri blr ≤ 1) ∧
    (∀ hp zn ev hf fs en bn bri blr,
        0 ≤ hb_confidence hp zn ev hf fs en bn bri blr ∧
        hb_confidence hp zn ev hf fs en bn bri blr ≤ 1) := by
  have hfs0 : ∀ fs : ℚ, 0 ≤ max 0 (min 1 fs) := fun fs => le_max_left _ _
  have hfs1 : ∀ fs : ℚ, max 0 (min 1 fs) ≤ 1 :=
    fun fs => max_le (by norm_num) (min_le_left _ _)
  have hcond : ∀ (p : Prop) [Decidable p] (fs : ℚ),
      0 ≤ (if p then max 0 (min 1 fs) else 0) ∧
      (if p then max 0 (min 1 fs) else 0) ≤ 1 := by
    intro p _ fs
    split_ifs with h
    · exact ⟨hfs0 fs, hfs1 fs⟩
    · norm_num
  have hz : ∀ (p : Prop) [Decidable p],
      0 ≤ (if p then (1 : ℚ) else 0) ∧ (if p then (1 : ℚ) else 0) ≤ 1 := by
    intro p _
    split_ifs <;> norm_num
  constructor
  · intro hp zn ev hf fs en bn bri blr
    simp only [overall_confidence]
    exact conf_blend_bounds _ _ _ _
      (hz _).1 (hz _).2 (hcond _ fs).1 (hcond _ fs).2
      (hcond _ fs).1 (hcond _ fs).2
      (le_min (norm_quality_nonneg _ _ _) (norm_quality_nonneg _ _ _))
      ((min_le_left _ _).trans (norm_quality_le_one _ _ _))
  · intro hp zn ev hf fs en bn bri blr
    have hbri : 0 ≤ (match bri with
        | none => (0 : ℚ)
        | some bv => norm_quality (some bv) BRIGHTNESS_MIN BRIGHTNESS_GOOD) ∧
        (match bri with
        | none => (0 : ℚ)
        | some bv => norm_quality (some bv) BRIGHTNESS_MIN BRIGHTNESS_GOOD) ≤ 1 := by
      cases bri with
      | none => norm_num
      | some bv => exact ⟨norm_quality_nonneg _ _ _, norm_quality_le_one _ _ _⟩
    have hblr : 0 ≤ (match blr with
        | none => (0 : ℚ)
        | some bv => norm_quality (some bv) BLUR_MIN BLUR_GOOD) ∧
        (match blr with
        | none => (0 : ℚ)
        | some bv => norm_quality (some bv) BLUR_MIN BLUR_GOOD) ≤ 1 := by
      cases blr with
      | none => norm_num
      | some bv => exact ⟨norm_quality_nonneg _ _ _, norm_quality_le_one _ _ _⟩
    simp only [hb_confidence]
    exact conf_blend_bounds _ _ _ _
      (hz _).1 (hz _).2 (hcond _ fs).1 (hcond _ fs).2
      (hcond _ fs).1 (hcond _ fs).2
      (le_min hbri.1 hblr.1)
      ((min_le_left _ _).trans hbri.2)

/-- The three effective weights are never negative. -/
theorem effWeights_nonneg (z e b : Option ℚ) (hp ev hf : Bool) (fs : ℚ) :
    0 ≤ (effWeights z e b hp ev hf fs).1 ∧
    0 ≤ (effWeights z e b hp ev hf fs).2.1 ∧
    0 ≤ (effWeights z e b hp ev hf fs).2.2 := by
  have h0 : (0 : ℚ) ≤ max 0 (min 1 fs) := le_max_left _ _
  simp only [effWeights, W_Z_BASE, W_EYE_BASE, W_BBOX_BASE]
  refine ⟨?_, ?_, ?_⟩ <;> split_ifs <;> linarith [h0]

/-- C1: on every tick the fused raw value is None exactly when the
effective weights (zeroed by availability and scaled by the clamped
face score) sum to ≤ 0; when the sum is positive and the normalized
signals lie in [0,1], the fused raw value is exactly their
weight-normalized convex combination and lies in [0,1]. -/
theorem fuse_components_spec (z e b : Option ℚ) (hp ev hf : Bool) (fs : ℚ)
    (hz : ∀ v, z = some v → 0 ≤ v ∧ v ≤ 1)
    (he : ∀ v, e = some v → 0 ≤ v ∧ v ≤ 1)
    (hb : ∀ v, b = some v → 0 ≤ v ∧ v ≤ 1) :
    ((fuse_components z e b hp ev hf fs).1 = none ↔
        (effWeights z e b hp ev hf fs).1 + (effWeights z e b hp ev hf fs).2.1
          + (effWeights z e b hp ev hf fs).2.2 ≤ 0) ∧
    (0 < (effWeights z e b hp ev hf fs).1 + (effWeights z e b hp ev hf fs).2.1
          + (effWeights z e b hp ev hf fs).2.2 →
        (fuse_components z e b hp ev hf fs).1
          = some (((effWeights z e b hp ev hf fs).1 * z.getD 0
              + (effWeights z e b hp ev hf fs).2.1 * e.getD 0
              + (effWeights z e b hp ev hf fs).2.2 * b.getD 0)
            / ((effWeights z e b hp ev hf fs).1 + (effWeights z e b hp ev hf fs).2.1
              + (effWeights z e b hp ev hf fs).2.2)) ∧
        0 ≤ ((effWeights z e b hp ev hf fs).1 * z.getD 0
              + (effWeights z e b hp ev hf fs).2.1 * e.getD 0
              + (effWeights z e b hp ev hf fs).2.2 * b.getD 0)
            / ((effWeights z e b hp ev hf fs).1 + (effWeights z e b hp ev hf fs).2.1
              + (effWeights z e b hp ev hf fs).2.2) ∧
        ((effWeights z e b hp ev hf fs).1 * z.getD 0
              + (effWeights z e b hp ev hf fs).2.1 * e.getD 0
              + (effWeights z e b hp ev hf fs).2.2 * b.getD 0)
            / ((effWeights z e b hp ev hf fs).1 + (effWeights z e b hp ev hf fs).2.1
              + (effWeights z e b hp ev hf fs).2.2) ≤ 1) := by
  obtain ⟨hw1, hw2, hw3⟩ := effWeights_nonneg z e b hp ev hf fs
  have hzv : 0 ≤ z.getD 0 ∧ z.getD 0 ≤ 1 := by
    cases z with
    | none => norm_num
    | some v => simpa using hz v rfl
  have hev : 0 ≤ e.getD 0 ∧ e.getD 0 ≤ 1 := by
    cases e with
    | none => norm_num
    | some v => simpa using he v rfl
  have hbv : 0 ≤ b.getD 0 ∧ b.getD 0 ≤ 1 := by
    cases b with
    | none => norm_num
    | some v => simpa using hb v rfl
  constructor
  · simp only [fuse_components]
    split_ifs with h
    · simp [h]
    · simp [h]
  · intro hpos
    have hnum0 : 0 ≤ (effWeights z e b hp ev hf fs).1 * z.getD 0
        + (effWeights z e b hp ev hf fs).2.1 * e.getD 0
        + (effWeights z e b hp ev hf fs).2.2 * b.getD 0 := by
      have := mul_nonneg hw1 hzv.1
      have := mul_nonneg hw2 hev.1
      have := mul_nonneg hw3 hbv.1
      linarith
    have hnum1 : (effWeights z e b hp ev hf fs).1 * z.getD 0
        + (effWeights z e b hp ev hf fs).2.1 * e.getD 0
        + (effWeights z e b hp ev hf fs).2.2 * b.getD 0
        ≤ (effWeights z e b hp ev hf fs).1 + (effWeights z e b hp ev hf fs).2.1
          + (effWeights z e b hp ev hf fs).2.2 := by
      have h1 : (effWeights z e b hp ev hf fs).1 * z.getD 0
          ≤ (effWeights z e b hp ev hf fs).1 := by nlinarith [hzv.2, hw1]
      have h2 : (effWeights z e b hp ev hf fs).2.1 * e.getD 0
          ≤ (effWeights z e b hp ev hf fs).2.1 := by nlinarith [hev.2, hw2]
      have h3 : (effWeights z e b hp ev hf fs).2.2 * b.getD 0
          ≤ (effWeights z e b hp ev hf fs).2.2 := by nlinarith [hbv.2, hw3]
      linarith
    have hq0 : 0 ≤ ((effWeights z e b hp ev hf fs).1 * z.getD 0
        + (effWeights z e b hp ev hf fs).2.1 * e.getD 0
        + (effWeights z e b hp ev hf fs).2.2 * b.getD 0)
        / ((effWeights z e b hp ev hf fs).1 + (effWeights z e b hp ev hf fs).2.1
          + (effWeights z e b hp ev hf fs).2.2) :=
      div_nonneg hnum0 (le_of_lt hpos)
    have hq1 : ((effWeights z e b hp ev hf fs).1 * z.getD 0
        + (effWeights z e b hp ev hf fs).2.1 * e.getD 0
        + (effWeights z e b hp ev hf fs).2.2 * b.getD 0)
        / ((effWeights z e b hp ev hf fs).1 + (effWeights z e b hp ev hf fs).2.1
          + (effWeights z e b hp ev hf fs).2.2) ≤ 1 := by
      rw [div_le_one hpos]; exact hnum1
    refine ⟨?_, hq0, hq1⟩
    simp only [fuse_components]
    split_ifs with h
    · linarith
    · rw [clamp01_eq_self hq0 hq1]

/-- C1 witness: with only the pose signal available at z_norm = 1/2,
the effective weights sum to 0.6 > 0 and the fused raw value is 1/2. -/
theorem fuse_components_spec_witness :
    (fuse_components (some (1/2 : ℚ)) none none true false false 0).1 = some (1/2) := by
  have h := fuse_components_spec (some (1/2 : ℚ)) none none true false false 0
    (fun v hv => by rw [Option.some_inj] at hv; subst hv; exact ⟨by norm_num, by norm_num⟩)
    (fun v hv => Option.noConfusion hv)
    (fun v hv => Option.noConfusion hv)
  have hpos : 0 < (effWeights (some (1/2 : ℚ)) none none true false false 0).1
      + (effWeights (some (1/2 : ℚ)) none none true false false 0).2.1
      + (effWeights (some (1/2 : ℚ)) none none true false false 0).2.2 := by
    simp [effWeights, W_Z_BASE, W_EYE_BASE, W_BBOX_BASE]
    norm_num
  rw [(h.2 hpos).1]
  simp [effWeights, W_Z_BASE, W_EYE_BASE, W_BBOX_BASE]
  norm_num

theorem qosAdjust_in_bounds (q : QoS) (o : Bool) (c : Option ℚ) (a b : ℚ)
    (hq : QoSInBounds q) : QoSInBounds (qosAdjust q o c a b) := by
  obtain ⟨h1, h2, h3, h4, h5, h6⟩ := hq
  simp only [PROC_SCALE_MIN, PROC_SCALE_MAX, FD_STRIDE_MIN, FD_STRIDE_MAX,
    POSE_STRIDE_MIN, POSE_STRIDE_MAX] at h1 h2 h3 h4 h5 h6
  simp only [QoSInBounds, qosAdjust, PROC_SCALE_MIN, PROC_SCALE_MAX, FD_STRIDE_MIN,
    FD_STRIDE_MAX, POSE_STRIDE_MIN, POSE_STRIDE_MAX]
  split_ifs <;>
    refine ⟨?_, ?_, ?_, ?_, ?_, ?_⟩ <;>
    dsimp only <;>
    first
      | assumption
      | omega
      | exact le_max_left _ _
      | exact max_le (by norm_num) (by linarith)
      | exact le_min (by norm_num) (by linarith)
      | exact min_le_left _ _

theorem qosAdjust_one_knob (q : QoS) (o : Bool) (c : Option ℚ) (a b : ℚ) :
    atMostOneKnobChanged q (qosAdjust q o c a b) := by
  simp only [qosAdjust]
  split_ifs <;> simp [atMostOneKnobChanged]

theorem setQos_in_bounds (q : QoS) (ps : Option ℚ) (fd pose : Option ℤ)
    (hq : QoSInBounds q) : QoSInBounds (setQos q ps fd pose) := by
  obtain ⟨h1, h2, h3, h4, h5, h6⟩ := hq
  simp only [PROC_SCALE_MIN, PROC_SCALE_MAX, FD_STRIDE_MIN, FD_STRIDE_MAX,
    POSE_STRIDE_MIN, POSE_STRIDE_MAX] at h1 h2 h3 h4 h5 h6
  rcases ps with _ | pv <;> rcases fd with _ | fv <;> rcases pose with _ | sv <;>
    simp only [QoSInBounds, setQos, PROC_SCALE_MIN, PROC_SCALE_MAX, FD_STRIDE_MIN,
      FD_STRIDE_MAX, POSE_STRIDE_MIN, POSE_STRIDE_MAX] <;>
    refine ⟨?_, ?_, ?_, ?_, ?_, ?_⟩ <;>
    dsimp only <;>
    first
      | assumption
      | exact le_max_left _ _
      | exact max_le (by norm_num) (min_le_left _ _)

theorem foldQos_in_bounds (evs : List QosEvent) (q : QoS) (hq : QoSInBounds q) :
    QoSInBounds (evs.foldl applyQosEvent q) := by
  induction evs generalizing q with
  | nil => simpa using hq
  | cons ev rest ih =>
      simp only [List.foldl_cons]
      apply ih
      cases ev with
      | adjust o c a b => exact qosAdjust_in_bounds q o c a b hq
      | override ps fd pose => exact setQos_in_bounds q ps fd pose hq

/-- C8: starting from the defaults (0.75, 2, 2) the QoS triple stays in
[0.55, 0.90] × [1, 4] × [1, 3]: each controller adjustment tick changes
at most one knob and preserves the bounds, each set_qos override is
clamped into the bounds, and any sequence of such events keeps the
triple in bounds. -/
theorem qos_bounds_spec :
    QoSInBounds qosDefault ∧
    (∀ q o c a b, QoSInBounds q →
        QoSInBounds (qosAdjust q o c a b) ∧
        atMostOneKnobChanged q (qosAdjust q o c a b)) ∧
    (∀ q ps fd pose, QoSInBounds q → QoSInBounds (setQos q ps fd pose)) ∧
    (∀ evs, QoSInBounds (runQos evs)) := by
  refine ⟨by norm_num [QoSInBounds, qosDefault, PROC_SCALE_MIN, PROC_SCALE_MAX, FD_STRIDE_MIN, FD_STRIDE_MAX, POSE_STRIDE_MIN, POSE_STRIDE_MAX], ?_, ?_, ?_⟩
  · intro q o c a b hq
    exact ⟨qosAdjust_in_bounds q o c a b hq, qosAdjust_one_knob q o c a b⟩
  · intro q ps fd pose hq
    exact setQos_in_bounds q ps fd pose hq
  · intro evs
    exact foldQos_in_bounds evs qosDefault (by norm_num [QoSInBounds, qosDefault, PROC_SCALE_MIN, PROC_SCALE_MAX, FD_STRIDE_MIN, FD_STRIDE_MAX, POSE_STRIDE_MIN, POSE_STRIDE_MAX])

/-- C8 witness: an overloaded tick from the defaults and an
out-of-range override both land inside the bounds. -/
theorem qos_bounds_spec_witness :
    QoSInBounds (qosAdjust qosDefault true none 80 50) ∧
    QoSInBounds (setQos qosDefault (some 2) (some 10) (some 0)) :=
  ⟨(qos_bounds_spec.2.1 qosDefault true none 80 50
      (by norm_num [QoSInBounds, qosDefault, PROC_SCALE_MIN, PROC_SCALE_MAX, FD_STRIDE_MIN, FD_STRIDE_MAX, POSE_STRIDE_MIN, POSE_STRIDE_MAX])).1,
   qos_bounds_spec.2.2.1 qosDefault (some 2) (some 10) (some 0)
      (by norm_num [QoSInBounds, qosDefault, PROC_SCALE_MIN, PROC_SCALE_MAX, FD_STRIDE_MIN, FD_STRIDE_MAX, POSE_STRIDE_MIN, POSE_STRIDE_MAX])⟩

theorem none_ne_some_iff {α : Type} (a : α) :
    ((none : Option α) = some a) ↔ False := by simp

theorem smStep_last_eq (s : SMState) (i : SMInput) :
    ((smStep s i).2 = true → (smStep s i).1.last_stable_change_ts = i.now) ∧
    ((smStep s i).2 = false →
      (smStep s i).1.last_stable_change_ts = s.last_stable_change_ts) := by
  cases hm : i.m with
  | none => simp [smStep, hm]
  | some m =>
      by_cases hp : i.paused = true
      · simp [smStep, hm, hp]
      · cases hs : s.state <;>
          simp only [smStep, hm, if_neg hp, hs] <;>
          split_ifs <;> simp

theorem smStep_inv (s : SMState) (i : SMInput) (h : SMInv s) :
    SMInv (smStep s i).1 := by
  cases hm : i.m with
  | none => simpa [smStep, hm] using h
  | some m =>
      by_cases hp : i.paused = true
      · simpa [smStep, hm, hp] using h
      · cases hs : s.state <;>
          simp only [smStep, hm, if_neg hp, hs] <;>
          split_ifs <;>
          simp_all [SMInv]

theorem smStep_commit_gap (s : SMState) (i : SMInput) (h : SMInv s)
    (hc : (smStep s i).2 = true) :
    MIN_FLIP_GAP_MS ≤ (i.now - s.last_stable_change_ts) * 1000 := by
  cases hm : i.m with
  | none => simp [smStep, hm] at hc
  | some m =>
      by_cases hp : i.paused = true
      · simp [smStep, hm, hp] at hc
      · cases hs : s.state <;>
          simp only [smStep, hm, if_neg hp, hs] at hc <;>
          split_ifs at hc <;>
          simp_all [SMInv, MIN_FLIP_GAP_MS, FUSED_DWELL_REVIEW_MS,
            FUSED_DWELL_FOCUS_MS] <;>
          linarith

theorem smRun_nocommit_last (l : List SMInput) (s : SMState)
    (h : smNoCommit s l = true) :
    (smRun s l).last_stable_change_ts = s.last_stable_change_ts := by
  induction l generalizing s with
  | nil => rfl
  | cons i rest ih =>
      simp only [smNoCommit, Bool.and_eq_true, Bool.not_eq_true'] at h
      have h2 : (smRun ((smStep s i).1) rest).last_stable_change_ts
          = ((smStep s i).1).last_stable_change_ts := ih _ h.2
      have h3 := (smStep_last_eq s i).2 h.1
      simp only [smRun, List.foldl_cons] at h2 ⊢
      rw [h2, h3]

theorem smRun_inv (l : List SMInput) (s : SMState) (h : SMInv s) :
    SMInv (smRun s l) := by
  induction l generalizing s with
  | nil => exact h
  | cons i rest ih =>
      simp only [smRun, List.foldl_cons]
      exact ih _ (smStep_inv s i h)

/-- C3: between two consecutive committed stable-state changes at least
MIN_FLIP_GAP_MS of wall-clock time elapse: if from an invariant-holding
state a tick at i1 commits, a run of further ticks commits nothing, and
the next tick at i2 commits again, then i2 is at least 1500 ms after
i1 — even though the commit branches of the transition states do not
re-check the gap themselves. -/
theorem min_flip_gap_spec (s : SMState) (i1 : SMInput) (tr : List SMInput)
    (i2 : SMInput) (hInv : SMInv s)
    (h1 : (smStep s i1).2 = true)
    (hnc : smNoCommit (smStep s i1).1 tr = true)
    (h2 : (smStep (smRun (smStep s i1).1 tr) i2).2 = true) :
    MIN_FLIP_GAP_MS ≤ (i2.now - i1.now) * 1000 := by
  have hlast1 : (smStep s i1).1.last_stable_change_ts = i1.now :=
    (smStep_last_eq s i1).1 h1
  have hinv1 : SMInv (smStep s i1).1 := smStep_inv s i1 hInv
  have hinv2 : SMInv (smRun (smStep s i1).1 tr) := smRun_inv tr _ hinv1
  have hlast2 : (smRun (smStep s i1).1 tr).last_stable_change_ts = i1.now := by
    rw [smRun_nocommit_last tr _ hnc, hlast1]
  have := smStep_commit_gap _ i2 hinv2 h2
  rwa [hlast2] at this

/-- C3 witness: a commit of REVIEW at t = 2.8 s (transition started at
t = 2 s from a stable change at t = 0) followed by a transition entry at
t = 4.4 s and a commit of FOCUS at t = 5.2 s; the two commits are
2.4 s ≥ 1.5 s apart. -/
theorem min_flip_gap_spec_witness :
    MIN_FLIP_GAP_MS ≤ ((26/5 : ℚ) - 14/5) * 1000 := by
  have h := min_flip_gap_spec
    { state := PState.transitionToReview, transition_target := some TTarget.review,
      transition_start_ts := 2, last_stable_change_ts := 0 }
    { m := some (3/10), paused := false, conf := 9/10, now := 14/5 }
    [{ m := some (7/10), paused := false, conf := 9/10, now := 22/5 }]
    { m := some (7/10), paused := false, conf := 9/10, now := 26/5 }
    (by norm_num [SMInv, MIN_FLIP_GAP_MS])
    (by norm_num [smStep, FUSED_T_REVIEW_IN, FUSED_T_FOCUS_IN, CONF_MIN,
        FUSED_DWELL_REVIEW_MS, FUSED_DWELL_FOCUS_MS, MIN_FLIP_GAP_MS, none_ne_some_iff])
    (by norm_num [smNoCommit, smStep, FUSED_T_REVIEW_IN, FUSED_T_FOCUS_IN, CONF_MIN,
        FUSED_DWELL_REVIEW_MS, FUSED_DWELL_FOCUS_MS, MIN_FLIP_GAP_MS, none_ne_some_iff])
    (by norm_num [smRun, smNoCommit, smStep, FUSED_T_REVIEW_IN, FUSED_T_FOCUS_IN,
        CONF_MIN, FUSED_DWELL_REVIEW_MS, FUSED_DWELL_FOCUS_MS, MIN_FLIP_GAP_MS,
        none_ne_some_iff])
  exact h

/-- C4: on a tick whose fused EMA is missing or whose health status is
PAUSED, the state machine evaluates nothing: state, transition target
and last_stable_change_ts are returned unchanged and no stable change
is committed. -/
theorem paused_or_null_no_step (s : SMState) (i : SMInput)
    (h : i.m = none ∨ i.paused = true) :
    smStep s i = (s, false) := by
  cases h with
  | inl hm => simp [smStep, hm]
  | inr hp => cases hm : i.m <;> simp [smStep, hm, hp]

/-- C4 witness: a missing EMA tick and a PAUSED tick both leave the
initial state untouched and commit nothing. -/
theorem paused_or_null_no_step_witness :
    smStep smInit { m := none, paused := false, conf := 1, now := 5 } = (smInit, false) ∧
    smStep smInit { m := some (1/2), paused := true, conf := 1, now := 5 } = (smInit, false) :=
  ⟨paused_or_null_no_step _ _ (Or.inl rfl), paused_or_null_no_step _ _ (Or.inr rfl)⟩

theorem emaBeta_bounds (dt : ℝ) : 0 < emaBeta dt ∧ emaBeta dt < 1 := by
  unfold emaBeta EMA_TAU_S
  constructor
  · have hmax : (0 : ℝ) < max dt (1 / 1000) :=
      lt_of_lt_of_le (by norm_num) (le_max_right _ _)
    have harg : -(max dt (1 / 1000)) / (0.25 : ℝ) < 0 := by
      apply div_neg_of_neg_of_pos
      · linarith
      · norm_num
    have hlt : Real.exp (-(max dt (1 / 1000)) / (0.25 : ℝ)) < Real.exp 0 :=
      Real.exp_lt_exp.mpr harg
    rw [Real.exp_zero] at hlt
    linarith
  · have := Real.exp_pos (-(max dt (1 / 1000)) / (0.25 : ℝ))
    linarith

theorem ema_update_mem (p : ℝ) (x : Option ℝ) (dt : ℝ)
    (hp0 : 0 ≤ p) (hp1 : p ≤ 1)
    (hx : ∀ v, x = some v → 0 ≤ v ∧ v ≤ 1) :
    ∃ r, ema_update (some p) x dt = some r ∧ 0 ≤ r ∧ r ≤ 1 := by
  cases x with
  | none => exact ⟨p, rfl, hp0, hp1⟩
  | some v =>
      obtain ⟨hv0, hv1⟩ := hx v rfl
      obtain ⟨hb0, hb1⟩ := emaBeta_bounds dt
      have hδ : (0 : ℝ) < WINSOR_DELTA := by norm_num [WINSOR_DELTA]
      have hxc0 : 0 ≤ max (p - WINSOR_DELTA) (min (p + WINSOR_DELTA) v) :=
        le_max_of_le_right (le_min (by linarith) hv0)
      have hxc1 : max (p - WINSOR_DELTA) (min (p + WINSOR_DELTA) v) ≤ 1 :=
        max_le (by linarith) ((min_le_right _ _).trans hv1)
      refine ⟨_, rfl, ?_, ?_⟩
      · nlinarith [mul_nonneg (sub_nonneg.mpr (le_of_lt hb1)) hp0,
          mul_nonneg (le_of_lt hb0) hxc0]
      · nlinarith [mul_le_mul_of_nonneg_left hp1 (sub_nonneg.mpr (le_of_lt hb1)),
          mul_le_mul_of_nonneg_left hxc1 (le_of_lt hb0)]

/-- C2: ema_update preserves the previous EMA on a missing sample,
seeds with the sample when there is no previous EMA, and otherwise
blends with beta = 1 - exp(-max(dt, 1e-3)/0.25) after winsorizing the
sample to ±0.35 of the previous value; each update step moves the EMA
by at most 0.35, and an EMA seeded in [0,1] stays in [0,1] under any
stream of samples that are in [0,1] whenever present. -/
theorem ema_update_spec :
    (∀ prev dt, ema_update prev none dt = prev) ∧
    (∀ x dt, ema_update none (some x) dt = some x) ∧
    (∀ dt, emaBeta dt = 1 - Real.exp (-(max dt (1 / 1000)) / (1 / 4))) ∧
    (∀ p x dt, ema_update (some p) (some x) dt
        = some (p + emaBeta dt * (max (p - 0.35) (min (p + 0.35) x) - p))) ∧
    (∀ p x dt, |(ema_update (some p) (some x) dt).getD 0 - p| ≤ 0.35) ∧
    (∀ e0 xs, 0 ≤ e0 → e0 ≤ 1 →
        (∀ pr ∈ xs, ∀ v, pr.1 = some v → 0 ≤ v ∧ v ≤ 1) →
        ema_run (some e0) xs ≠ none ∧
        0 ≤ (ema_run (some e0) xs).getD 0 ∧ (ema_run (some e0) xs).getD 0 ≤ 1) := by
  refine ⟨fun prev dt => rfl, fun x dt => rfl, ?_, ?_, ?_, ?_⟩
  · intro dt
    norm_num [emaBeta, EMA_TAU_S]
  · intro p x dt
    norm_num [ema_update, WINSOR_DELTA]
  · intro p x dt
    obtain ⟨hb0, hb1⟩ := emaBeta_bounds dt
    have hδ : (0 : ℝ) < WINSOR_DELTA := by norm_num [WINSOR_DELTA]
    simp only [ema_update, Option.getD_some]
    have hlo : p - WINSOR_DELTA ≤ max (p - WINSOR_DELTA) (min (p + WINSOR_DELTA) x) :=
      le_max_left _ _
    have hhi : max (p - WINSOR_DELTA) (min (p + WINSOR_DELTA) x) ≤ p + WINSOR_DELTA :=
      max_le (by linarith) (min_le_left _ _)
    have habs : |max (p - WINSOR_DELTA) (min (p + WINSOR_DELTA) x) - p| ≤ WINSOR_DELTA :=
      abs_le.mpr ⟨by linarith, by linarith⟩
    have heq : p + emaBeta dt * (max (p - WINSOR_DELTA) (min (p + WINSOR_DELTA) x) - p) - p
        = emaBeta dt * (max (p - WINSOR_DELTA) (min (p + WINSOR_DELTA) x) - p) := by
      ring
    rw [heq, abs_mul, abs_of_pos hb0]
    calc emaBeta dt * |max (p - WINSOR_DELTA) (min (p + WINSOR_DELTA) x) - p|
        ≤ 1 * WINSOR_DELTA :=
          mul_le_mul (le_of_lt hb1) habs (abs_nonneg _) (by norm_num)
      _ = 0.35 := by norm_num [WINSOR_DELTA]
  · intro e0 xs he0 he1 hmem
    induction xs generalizing e0 with
    | nil => simpa [ema_run] using ⟨he0, he1⟩
    | cons pr rest ih =>
        obtain ⟨r, hr, hr0, hr1⟩ :=
          ema_update_mem e0 pr.1 pr.2 he0 he1 (hmem pr (List.mem_cons_self pr rest))
        have hrun : ema_run (some e0) (pr :: rest) = ema_run (some r) rest := by
          simp only [ema_run, List.foldl_cons, hr]
        rw [hrun]
        exact ih r hr0 hr1 (fun q hq => hmem q (List.mem_cons_of_mem pr hq))

/-- C2 witness: a missing sample preserves the EMA 1/2, and running
from seed 1/2 over one missing sample keeps the EMA defined in [0,1]. -/
theorem ema_update_spec_witness :
    ema_update (some (1/2 : ℝ)) none 1 = some (1/2) ∧
    ema_run (some (1/2 : ℝ)) [(none, 1)] ≠ none ∧
    0 ≤ (ema_run (some (1/2 : ℝ)) [(none, 1)]).getD 0 ∧
    (ema_run (some (1/2 : ℝ)) [(none, 1)]).getD 0 ≤ 1 := by
  have h5 := ema_update_spec.2.2.2.2.2 (1/2) [(none, 1)] (by norm_num) (by norm_num)
    (fun pr hpr v hv => by
      rw [List.mem_singleton] at hpr
      subst hpr
      exact absurd hv (by simp))
  exact ⟨ema_update_spec.1 (some (1/2)) 1, h5.1, h5.2.1, h5.2.2⟩

theorem pi_half_deg : (Real.pi / 2) * (180 / Real.pi) = 90 := by
  have hpi := Real.pi_ne_zero
  field_simp
  ring

theorem atan2_deg_bounds (y x : ℝ) (hx : 0 ≤ x) :
    -90 ≤ atan2 y x * (180 / Real.pi) ∧ atan2 y x * (180 / Real.pi) ≤ 90 := by
  have hpi := Real.pi_pos
  have hc : (0 : ℝ) < 180 / Real.pi := by positivity
  rcases lt_or_eq_of_le hx with hxpos | hxzero
  · have h1 : Real.arctan (y / x) < Real.pi / 2 := Real.arctan_lt_pi_div_two _
    have h2 : -(Real.pi / 2) < Real.arctan (y / x) := Real.neg_pi_div_two_lt_arctan _
    have e : atan2 y x = Real.arctan (y / x) := by
      simp only [atan2, if_pos hxpos]
    rw [e]
    constructor
    · have := mul_lt_mul_of_pos_right h2 hc
      rw [neg_mul, pi_half_deg] at this
      linarith
    · have := mul_lt_mul_of_pos_right h1 hc
      rw [pi_half_deg] at this
      linarith
  · subst hxzero
    have e : atan2 y 0 = if 0 < y then Real.pi / 2 else if y < 0 then -(Real.pi / 2) else 0 := by
      simp only [atan2, lt_irrefl, if_neg (lt_irrefl 0), if_false]
    rw [e]
    split_ifs
    · rw [pi_half_deg]; norm_num
    · rw [neg_mul, pi_half_deg]; norm_num
    · norm_num

/-- C9 counterexample: with both eye keypoints at x = 0.5 and the
right-labelled eye above the left-labelled one (ry = 0.3, ly = 0.5),
no swap happens, the ordered difference is (0, -0.2), atan2 gives
-pi/2 and the returned roll is exactly -90 degrees — which is not in
the open-below interval (-90, 90]. -/
theorem eye_features_roll_minus_ninety :
    (eye_features (1/2) (3/10) (1/2) (1/2)).2 = -90 ∧
    ¬(-90 < (eye_features (1/2) (3/10) (1/2) (1/2)).2) := by
  have hpi := Real.pi_ne_zero
  have hord : orderedEyes (1/2) (3/10) (1/2) (1/2)
      = ((1/2, 1/2), (1/2, 3/10)) := by
    simp only [orderedEyes]
    norm_num
  have hatan : atan2 ((3:ℝ)/10 - 1/2) ((1:ℝ)/2 - 1/2) = -(Real.pi / 2) := by
    simp only [atan2]
    norm_num
  have hval : (eye_features (1/2) (3/10) (1/2) (1/2)).2 = -90 := by
    simp only [eye_features, hord]
    rw [hatan]
    rw [neg_mul, pi_half_deg]
    norm_num
  exact ⟨hval, by rw [hval]; norm_num⟩

/-- C9 (amended): for a detection with both eye keypoints present the
extractor orders the eyes so that left.x ≤ right.x (swapping if not),
returns eye_dist as the euclidean norm of the ordered difference, and
returns roll_deg as atan2 of the ordered differences converted to
degrees with ±180 applied when outside [-90, 90]; the result always
lies in the closed interval [-90, 90] (the endpoint -90 is attained
when the ordered eyes share an x coordinate, so the interval is not
open at -90). -/
theorem eye_features_spec (rx ry lx ly : ℝ) :
    (orderedEyes rx ry lx ly).1.1 ≤ (orderedEyes rx ry lx ly).2.1 ∧
    (eye_features rx ry lx ly).1
      = Real.sqrt (((orderedEyes rx ry lx ly).2.1 - (orderedEyes rx ry lx ly).1.1) ^ 2
          + ((orderedEyes rx ry lx ly).2.2 - (orderedEyes rx ry lx ly).1.2) ^ 2) ∧
    (eye_features rx ry lx ly).2
      = (if atan2 ((orderedEyes rx ry lx ly).2.2 - (orderedEyes rx ry lx ly).1.2)
            ((orderedEyes rx ry lx ly).2.1 - (orderedEyes rx ry lx ly).1.1)
            * (180 / Real.pi) < -90 then
          atan2 ((orderedEyes rx ry lx ly).2.2 - (orderedEyes rx ry lx ly).1.2)
            ((orderedEyes rx ry lx ly).2.1 - (orderedEyes rx ry lx ly).1.1)
            * (180 / Real.pi) + 180
        else if atan2 ((orderedEyes rx ry lx ly).2.2 - (orderedEyes rx ry lx ly).1.2)
            ((orderedEyes rx ry lx ly).2.1 - (orderedEyes rx ry lx ly).1.1)
            * (180 / Real.pi) > 90 then
          atan2 ((orderedEyes rx ry lx ly).2.2 - (orderedEyes rx ry lx ly).1.2)
            ((orderedEyes rx ry lx ly).2.1 - (orderedEyes rx ry lx ly).1.1)
            * (180 / Real.pi) - 180
        else
          atan2 ((orderedEyes rx ry lx ly).2.2 - (orderedEyes rx ry lx ly).1.2)
            ((orderedEyes rx ry lx ly).2.1 - (orderedEyes rx ry lx ly).1.1)
            * (180 / Real.pi)) ∧
    -90 ≤ (eye_features rx ry lx ly).2 ∧ (eye_features rx ry lx ly).2 ≤ 90 := by
  have hord : (orderedEyes rx ry lx ly).1.1 ≤ (orderedEyes rx ry lx ly).2.1 := by
    simp only [orderedEyes]
    split_ifs with h
    · simp only []
      linarith
    · simp only []
      linarith
  refine ⟨hord, rfl, rfl, ?_⟩
  have hdx : 0 ≤ (orderedEyes rx ry lx ly).2.1 - (orderedEyes rx ry lx ly).1.1 := by
    linarith
  obtain ⟨hb1, hb2⟩ := atan2_deg_bounds
    ((orderedEyes rx ry lx ly).2.2 - (orderedEyes rx ry lx ly).1.2)
    ((orderedEyes rx ry lx ly).2.1 - (orderedEyes rx ry lx ly).1.1) hdx
  have hwrap : (eye_features rx ry lx ly).2
      = atan2 ((orderedEyes rx ry lx ly).2.2 - (orderedEyes rx ry lx ly).1.2)
          ((orderedEyes rx ry lx ly).2.1 - (orderedEyes rx ry lx ly).1.1)
          * (180 / Real.pi) := by
    simp only [eye_features]
    rw [if_neg (by linarith), if_neg (by linarith)]
  rw [hwrap]
  exact ⟨hb1, hb2⟩
